import Mathlib

/-!
# smtp2tg: routing, queueing and dispatch of `main.go`

A shallow embedding of `src/main.go`.

* Go strings and byte slices are lists of characters (`Str`).
* Go maps are association lists; `mapGet` is the lookup and `mapSet` the assignment `m[k] = v`.
  The order of the list is the order in which `range` visits the map.
* A buffered channel is the list of the items it holds, oldest first.
* Library calls whose code is not in the repository (`mail.ParseAddress`, `email.ParseMessage`,
  `strconv.ParseInt`, the Telegram client, `smtp.SendMail`) are parameters.
-/

namespace Smtp2tg

/-- Go `string` / `[]byte`. -/
abbrev Str := List Char

/-! ## Data model -/

/-- The constant `queueLength`. -/
def queueLength : Nat := 500

/-- The struct `address`. -/
structure address where
  Address : Str
  Tag : Str
  deriving DecidableEq, Repr

/-! ## `parseAddress` -/

/-- The regular expression `(.+)@` matched at the start of the input, with Go's (leftmost-first,
greedy) semantics: `.` is any character but a newline, `.+` first takes as many characters as it
can and gives them back one at a time until an `@` follows. The result is the text of the group. -/
def matchGroupAt : Str → Option Str
  | [] => none
  | c :: rest =>
    if c = '\n' then none
    else
      match matchGroupAt rest with
      | some t => some (c :: t)
      | none => if rest.head? = some '@' then some [c] else none

/-- The call `tagRe.FindStringSubmatch(s)` for `tagRe = \+(.+)@`: the leftmost `+` from which
the expression matches; `none` is the empty result, `some t` is `matches[1] = t`. -/
def FindStringSubmatch : Str → Option Str
  | [] => none
  | c :: rest =>
    if c = '+' then
      match matchGroupAt rest with
      | some t => some t
      | none => FindStringSubmatch rest
    else FindStringSubmatch rest

/-- The call `strings.Replace(s, old, "", 1)`: the first occurrence of `old` is removed. -/
def ReplaceFirst (old : Str) : Str → Str
  | [] => []
  | c :: rest =>
    if old.isPrefixOf (c :: rest) then (c :: rest).drop old.length
    else c :: ReplaceFirst old rest

/-- The function `parseAddress`. `mailParseAddress` is `mail.ParseAddress` followed by the
projection `.Address`: the error, or the bare `local@domain` of the parsed address. -/
def parseAddress (mailParseAddress : Str → Except Str Str) (input : Str) : Except Str address :=
  match mailParseAddress input with
  | .error err => .error err
  | .ok addressParts =>
    match FindStringSubmatch addressParts with
    | some tag => .ok { Address := ReplaceFirst ('+' :: tag) addressParts, Tag := tag }
    | none => .ok { Address := addressParts, Tag := [] }

/-! ## Messages, queue items and maps -/

/-- One part of a decoded message. `ContentDisposition` is the outcome of
`part.Header.ContentDisposition()`: `none` when it returns an error, else `params["filename"]`
(empty when the parameter is missing). -/
structure Part where
  Body : Str
  ContentDisposition : Option Str
  deriving DecidableEq, Repr

/-- The decoded `*email.Message`, seen through the three accessors the program uses:
`Header.Get("Subject")`, `MessagesContentTypePrefix("text")` and
`MessagesContentTypePrefix("image")`. -/
structure Message where
  Subject : Str
  text : List Part
  image : List Part
  deriving DecidableEq, Repr

/-- The struct `queueItem`. -/
structure queueItem where
  from_ : Str
  isPin : Bool
  to_ : List Str
  msg : Message
  data : Str
  deriving DecidableEq, Repr

/-- Lookup in a Go map; `none` when the key is missing. -/
def mapGet {κ ν : Type} [DecidableEq κ] : List (κ × ν) → κ → Option ν
  | [], _ => none
  | (k, v) :: rest, key => if k = key then some v else mapGet rest key

/-- The assignment `m[key] = v`. -/
def mapSet {κ ν : Type} [DecidableEq κ] : List (κ × ν) → κ → ν → List (κ × ν)
  | [], key, v => [(key, v)]
  | (k, w) :: rest, key, v => if k = key then (k, v) :: rest else (k, w) :: mapSet rest key v

/-- The global `receivers`. -/
abbrev Receivers := List (Str × Int)

/-- The global `queues`: per destination id, the items waiting in the channel, oldest first. -/
abbrev Queues := List (Int × List queueItem)

/-! ## Startup: `main`, lines 73-86 -/

/-- The part of `main` that builds `receivers` and `queues` from the configuration table
`rawReceivers`. `ParseInt` is `strconv.ParseInt(·, 10, 64)`, `none` being an error. The result is
`none` when `main` stops (`log.Fatal` on a missing or empty `*`, `return` on a bad id). -/
def buildMaps (ParseInt : Str → Option Int) :
    List (Str × Str) → Receivers × Queues → Option (Receivers × Queues)
  | [], acc => some acc
  | (addr, tgid) :: rest, (receivers, queues) =>
    match ParseInt tgid with
    | none => none
    | some i => buildMaps ParseInt rest (mapSet receivers addr i, mapSet queues i [])

/-- Lines 73-86 of `main`. -/
def main (ParseInt : Str → Option Int) (rawReceivers : List (Str × Str)) :
    Option (Receivers × Queues) :=
  if (mapGet rawReceivers ['*']).getD [] = [] then none
  else buildMaps ParseInt rawReceivers ([], [])

/-! ## `mailHandler` -/

/-- The literal searched for in the first textual part. -/
def sentinel : Str := "Face Recognition Clear".toList

/-- The call `strings.Contains(s, sub)`. -/
def Contains (s sub : Str) : Bool :=
  s.tails.any (fun t => sub.isPrefixOf t)

/-- The call `strings.Trim(s, cutset)`. -/
def Trim (s cutset : Str) : Str :=
  ((s.dropWhile (fun c => cutset.contains c)).reverse.dropWhile
    (fun c => cutset.contains c)).reverse

/-- Lines 164-167 of `mailHandler`: the destination id for a canonical sender address. A missing
key reads as the zero value. -/
def tgid (receivers : Receivers) (addr : Str) : Int :=
  let tgid := (mapGet receivers addr).getD 0
  if tgid = 0 then (mapGet receivers ['*']).getD 0 else tgid

/-- How a call of `mailHandler` ends. -/
inductive Outcome
  /-- The handler returned without touching a queue. -/
  | dropped
  /-- A run-time panic: index out of range. -/
  | panicked
  /-- The item was sent on the channel `queues[tgid]`; the queues afterwards. -/
  | enqueued (tgid : Int) (item : queueItem) (queues : Queues)
  /-- The send on `queues[tgid]` blocks: the channel holds `queueLength` items. -/
  | blockedFull (tgid : Int) (item : queueItem)
  /-- The send blocks for ever: `queues[tgid]` is missing, a nil channel. -/
  | blockedNil (tgid : Int) (item : queueItem)
  deriving DecidableEq, Repr

/-- The statement `queues[tgid] <- item`, lines 187-193. -/
def chanSend (queues : Queues) (tgid : Int) (item : queueItem) : Outcome :=
  match mapGet queues tgid with
  | none => .blockedNil tgid item
  | some items =>
    if items.length < queueLength then .enqueued tgid item (mapSet queues tgid (items ++ [item]))
    else .blockedFull tgid item

/-- The function `mailHandler`. `ParseMessage` is `email.ParseMessage` on the raw bytes. -/
def mailHandler (mailParseAddress : Str → Except Str Str) (ParseMessage : Str → Except Str Message)
    (receivers : Receivers) (queues : Queues)
    (from_ : Str) (to_ : List Str) (data : Str) : Outcome :=
  match parseAddress mailParseAddress from_ with
  | .error _ => .dropped
  | .ok fromAddress =>
    match to_ with
    | [] => .panicked
    | to0 :: toRest =>
      let to_ := Trim to0 " ><".toList :: toRest
      match ParseMessage data with
      | .error _ => .dropped
      | .ok msg =>
        let tgid := tgid receivers fromAddress.Address
        let textMsgs := msg.text
        match textMsgs with
        | [] => .panicked
        | first :: _ =>
          if Contains first.Body sentinel then .dropped
          else
            let images := msg.image
            if textMsgs.length = 0 ∧ images.length = 0 then .dropped
            else
              chanSend queues tgid
                { from_ := fromAddress.Address, isPin := fromAddress.Tag = "pin".toList,
                  to_ := to_, msg := msg, data := data }

/-- The queue a call of `mailHandler` sends to, when it reaches the send. -/
def Outcome.target : Outcome → Option Int
  | .enqueued tgid _ _ => some tgid
  | .blockedFull tgid _ => some tgid
  | .blockedNil tgid _ => some tgid
  | _ => none

/-! ## `handleQueue` and `mailFallback` -/

/-- The two kinds of message given to `bot.Send`: `tgbotapi.NewMessage` with its `ParseMode`, and
`tgbotapi.NewPhotoUpload` of a `FileBytes` with its `Caption` and `DisableNotification`. -/
inductive Chattable
  | MessageConfig (ChatID : Int) (Text : Str) (ParseMode : Str)
  | PhotoConfig (ChatID : Int) (Name : Str) (Bytes : Str) (Caption : Str)
      (DisableNotification : Bool)
  deriving DecidableEq, Repr

/-- The struct `tgbotapi.PinChatMessageConfig`. -/
structure PinChatMessageConfig where
  ChatID : Int
  MessageID : Int
  DisableNotification : Bool
  deriving DecidableEq, Repr

/-- The calls the dispatch loop makes, in the order it makes them. -/
inductive Call
  | Send (c : Chattable)
  | PinChatMessage (c : PinChatMessageConfig)
  | mailFallback (from_ : Str) (to_ : List Str) (data : Str)
  | SendMail (addr : Str) (from_ : Str) (to_ : List Str) (data : Str)
  deriving DecidableEq, Repr

/-- The outside world as the loop sees it: a state `W` and, for each library call, the new state
and the result. `Send` gives the `MessageID` of the message or an error; the other two give the
error, if any. -/
structure Services (W : Type) where
  Send : W → Chattable → W × Except Str Int
  PinChatMessage : W → PinChatMessageConfig → W × Option Str
  SendMail : W → Str → Str → List Str → Str → W × Option Str

/-- The settings `mailFallback` reads: the global `isFallback` and the two parts of the address
`fallback.host:fallback.port`. The credentials `fallbackAuth` are left out. -/
structure Fallback where
  isFallback : Bool
  host : Str
  port : Str

/-- The constant `tgbotapi.ModeMarkdown`. -/
def ModeMarkdown : Str := "Markdown".toList

/-- The function `mailFallback`. -/
def mailFallback {W : Type} (sv : Services W) (fb : Fallback) (w : W)
    (from_ : Str) (to_ : List Str) (data : Str) : W × List Call :=
  if !fb.isFallback then (w, [])
  else
    let addr := fb.host ++ ':' :: fb.port
    ((sv.SendMail w addr from_ to_ data).1, [Call.SendMail addr from_ to_ data])

/-- The loop `for _, part := range images`, lines 233-250. -/
def sendImages {W : Type} (sv : Services W) (id : Int) : List Part → W → W × List Call
  | [], w => (w, [])
  | part :: rest, w =>
    match part.ContentDisposition with
    | none => sendImages sv id rest w
    | some text =>
      let tgMsg := Chattable.PhotoConfig id text part.Body text true
      let r := sendImages sv id rest (sv.Send w tgMsg).1
      (r.1, Call.Send tgMsg :: r.2)

/-- The body of the loop over the queues for one dequeued item, lines 209-250. -/
def processItem {W : Type} (sv : Services W) (fb : Fallback) (id : Int) (item : queueItem)
    (w : W) : W × List Call :=
  let subject := item.msg.Subject
  let textMsgs := item.msg.text
  let images := item.msg.image
  match textMsgs with
  | first :: _ =>
    let bodyStr := '*' :: subject ++ "*\n\n".toList ++ first.Body
    let tgMsg := Chattable.MessageConfig id bodyStr ModeMarkdown
    match sv.Send w tgMsg with
    | (w1, .error _) =>
      let r := mailFallback sv fb w1 item.from_ item.to_ item.data
      (r.1, Call.Send tgMsg :: Call.mailFallback item.from_ item.to_ item.data :: r.2)
    | (w1, .ok messageID) =>
      if item.isPin then
        let pinConfig : PinChatMessageConfig :=
          { ChatID := id, MessageID := messageID, DisableNotification := true }
        let r := sendImages sv id images (sv.PinChatMessage w1 pinConfig).1
        (r.1, Call.Send tgMsg :: Call.PinChatMessage pinConfig :: r.2)
      else
        let r := sendImages sv id images w1
        (r.1, Call.Send tgMsg :: r.2)
  | [] => sendImages sv id images w

/-- What one pass over the queues leaves behind. -/
structure Cycle (W : Type) where
  queues : Queues
  world : W
  calls : List Call
  queueLength : Nat

/-- One dispatch cycle of `handleQueue`: the loop `for id, items := range queues`, lines 199-251,
with no sender running at the same time. `n` is the local `queueLength` so far. -/
def handleQueueCycle {W : Type} (sv : Services W) (fb : Fallback) : Queues → W → Nat → Cycle W
  | [], w, n => { queues := [], world := w, calls := [], queueLength := n }
  | (id, []) :: rest, w, n =>
    let r := handleQueueCycle sv fb rest w n
    { r with queues := (id, []) :: r.queues }
  | (id, item :: items) :: rest, w, n =>
    let p := processItem sv fb id item w
    let r := handleQueueCycle sv fb rest p.1 (n + items.length)
    { r with queues := (id, items) :: r.queues, calls := p.2 ++ r.calls }

/-- Whether a call is the send of a text message. -/
def isTextSend : Call → Bool
  | Call.Send (Chattable.MessageConfig _ _ _) => true
  | _ => false

/-- Whether a call is the send of a text message to the destination `id`. -/
def isTextSendTo (id : Int) : Call → Bool
  | Call.Send (Chattable.MessageConfig chat _ _) => chat = id
  | _ => false

/-- The number of text messages among the calls. -/
def textSends (calls : List Call) : Nat := calls.countP isTextSend

/-- The number of text messages to the destination `id` among the calls. -/
def textSendsTo (id : Int) (calls : List Call) : Nat := calls.countP (isTextSendTo id)

/-- The photo messages the loop over `images` sends to `id`: one for each part whose content
disposition parses, in order. -/
def photoCalls (id : Int) (images : List Part) : List Call :=
  images.filterMap (fun part =>
    part.ContentDisposition.map (fun text => Call.Send (Chattable.PhotoConfig id text part.Body text true)))

/-! ## Stand-ins for the library calls, used at concrete inputs -/

/-- The value of a string of decimal digits, `none` when a character is not a digit. -/
def digitsValue : Str → Nat → Option Nat
  | [], acc => some acc
  | c :: rest, acc =>
    if '0' ≤ c ∧ c ≤ '9' then digitsValue rest (acc * 10 + (c.toNat - '0'.toNat)) else none

/-- A stand-in for `strconv.ParseInt(s, 10, 64)`: an optional sign, one or more decimal digits,
and a value in the range of `int64`. -/
def ParseInt (s : Str) : Option Int :=
  let signed : Bool × Str :=
    match s with
    | '-' :: rest => (true, rest)
    | '+' :: rest => (false, rest)
    | _ => (false, s)
  if signed.2 = [] then none
  else
    match digitsValue signed.2 0 with
    | none => none
    | some v =>
      let i : Int := if signed.1 then -(v : Int) else (v : Int)
      if -(2 ^ 63 : Int) ≤ i ∧ i < 2 ^ 63 then some i else none

/-- A stand-in for `mail.ParseAddress` on a bare `local@domain`, which it returns as it is. -/
def bareAddress (s : Str) : Except Str Str := .ok s

/-- A world in which every call succeeds; `Send` returns the message id 7. -/
def allOk : Services Unit where
  Send := fun _ _ => ((), .ok 7)
  PinChatMessage := fun _ _ => ((), none)
  SendMail := fun _ _ _ _ _ => ((), none)

/-- A world in which every call fails. -/
def allFail : Services Unit where
  Send := fun _ _ => ((), .error "send".toList)
  PinChatMessage := fun _ _ => ((), some "pin".toList)
  SendMail := fun _ _ _ _ _ => ((), some "mail".toList)

/-- An item with one textual part and no image. -/
def textItem : queueItem :=
  ⟨"bob@x.com".toList, false, ["r@y.com".toList], ⟨"s".toList, [⟨"hello".toList, none⟩], []⟩,
    "raw".toList⟩

/-- The queues of the destinations `0, …, k - 1`, each holding one `textItem`. -/
def busyQueues (k : Nat) : Queues :=
  (List.range k).map (fun (i : Nat) => (Int.ofNat i, [textItem]))

/-! ## Theorems: `parseAddress` -/

theorem matchGroupAt_cons (c : Char) (rest : Str) :
    matchGroupAt (c :: rest) =
      if c = '\n' then none
      else
        match matchGroupAt rest with
        | some t => some (c :: t)
        | none => if rest.head? = some '@' then some [c] else none := rfl

theorem matchGroupAt_none_of_no_at (s : Str) (h : '@' ∉ s) : matchGroupAt s = none := by
  induction s with
  | nil => rfl
  | cons c rest ih =>
    have hrest : '@' ∉ rest := fun hm => h (List.mem_cons_of_mem _ hm)
    have hhead : rest.head? ≠ some '@' := by
      intro hr
      exact hrest (List.mem_of_mem_head? (hr ▸ rfl))
    rw [matchGroupAt_cons, ih hrest]
    simp [hhead]

theorem matchGroupAt_at_cons (dom : Str) (h : '@' ∉ dom) : matchGroupAt ('@' :: dom) = none :=by
  have hhead : dom.head? ≠ some '@' := by
    intro hr
    exact h (List.mem_of_mem_head? (hr ▸ rfl))
  rw [matchGroupAt_cons, matchGroupAt_none_of_no_at dom h]
  simp [hhead]

/-- The group of `(.+)@` on `tag@dom`, for a non-empty `tag` without a newline and a `dom`
without `@`, is `tag`. -/
theorem matchGroupAt_tag (tag dom : Str) (hne : tag ≠ []) (hnl : '\n' ∉ tag) (hat : '@' ∉ dom) :
    matchGroupAt (tag ++ '@' :: dom) = some tag := by
  induction tag with
  | nil => exact absurd rfl hne
  | cons c t ih =>
    have hc : c ≠ '\n' := fun hc => hnl (hc ▸ List.mem_cons_self _ _)
    have ht : '\n' ∉ t := fun hm => hnl (List.mem_cons_of_mem _ hm)
    cases t with
    | nil =>
      show matchGroupAt (c :: '@' :: dom) = some [c]
      rw [matchGroupAt_cons, if_neg hc, matchGroupAt_at_cons dom hat]
      rfl
    | cons d t' =>
      have ih' := ih (List.cons_ne_nil _ _) ht
      show matchGroupAt (c :: ((d :: t') ++ '@' :: dom)) = some (c :: d :: t')
      rw [matchGroupAt_cons, if_neg hc, ih']

theorem FindStringSubmatch_skip (pre rest : Str) (h : '+' ∉ pre) :
    FindStringSubmatch (pre ++ rest) = FindStringSubmatch rest := by
  induction pre with
  | nil => rfl
  | cons c p ih =>
    have hc : c ≠ '+' := fun hc => h (hc ▸ List.mem_cons_self _ _)
    have hp : '+' ∉ p := fun hm => h (List.mem_cons_of_mem _ hm)
    show FindStringSubmatch (c :: (p ++ rest)) = _
    rw [FindStringSubmatch, if_neg hc, ih hp]

theorem ReplaceFirst_skip (tag pre rest : Str) (h : '+' ∉ pre) :
    ReplaceFirst ('+' :: tag) (pre ++ rest) = pre ++ ReplaceFirst ('+' :: tag) rest := by
  induction pre with
  | nil => rfl
  | cons c p ih =>
    have hc : c ≠ '+' := fun hc => h (hc ▸ List.mem_cons_self _ _)
    have hp : '+' ∉ p := fun hm => h (List.mem_cons_of_mem _ hm)
    show ReplaceFirst ('+' :: tag) (c :: (p ++ rest)) = c :: (p ++ _)
    have hpre : List.isPrefixOf ('+' :: tag) (c :: (p ++ rest)) = false := by
      simp [List.isPrefixOf, Ne.symm hc]
    rw [ReplaceFirst, hpre, ih hp]
    rfl

theorem isPrefixOf_append_self (a b : Str) : List.isPrefixOf a (a ++ b) = true := by
  induction a with
  | nil => simp [List.isPrefixOf]
  | cons c a ih => simp [List.isPrefixOf, ih]

theorem ReplaceFirst_here (tag rest : Str) :
    ReplaceFirst ('+' :: tag) ('+' :: tag ++ rest) = rest := by
  have hpre : List.isPrefixOf ('+' :: tag) ('+' :: (tag ++ rest)) = true :=
    isPrefixOf_append_self ('+' :: tag) rest
  show ReplaceFirst ('+' :: tag) ('+' :: (tag ++ rest)) = rest
  rw [ReplaceFirst, hpre]
  simp

/-- On an address `pre+tag@dom` whose `pre` has no `+`, whose `tag` is not empty and has no
newline and whose `dom` has no `@`, the result is the address `pre@dom` and the tag `tag`. -/
theorem parseAddress_split (p : Str → Except Str Str) (input pre tag dom : Str)
    (hp : p input = .ok (pre ++ '+' :: tag ++ '@' :: dom))
    (hpre : '+' ∉ pre) (hne : tag ≠ []) (hnl : '\n' ∉ tag) (hat : '@' ∉ dom) :
    parseAddress p input = .ok { Address := pre ++ '@' :: dom, Tag := tag } := by
  have hfind : FindStringSubmatch (pre ++ '+' :: tag ++ '@' :: dom) = some tag := by
    have : pre ++ '+' :: tag ++ '@' :: dom = pre ++ ('+' :: (tag ++ '@' :: dom)) := by simp
    rw [this, FindStringSubmatch_skip _ _ hpre, FindStringSubmatch, if_pos rfl,
      matchGroupAt_tag tag dom hne hnl hat]
  have hrep : ReplaceFirst ('+' :: tag) (pre ++ '+' :: tag ++ '@' :: dom) = pre ++ '@' :: dom := by
    have : pre ++ '+' :: tag ++ '@' :: dom = pre ++ ('+' :: tag ++ '@' :: dom) := by simp
    rw [this, ReplaceFirst_skip _ _ _ hpre, ReplaceFirst_here]
  unfold parseAddress
  rw [hp]
  simp only [hfind, hrep]

/-- C1 (as amended). For every address `local+tag@domain` accepted by `mail.ParseAddress` whose
`local` contains no `+` (the tag is not empty and has no newline, the domain has no `@`, as in
every valid address), `parseAddress` succeeds with Address `local@domain` and Tag `tag`. The `+`
honoured is the first `+` of the address. -/
theorem parseAddress_tagged (p : Str → Except Str Str) (input loc tag domain : Str)
    (hvalid : p input = .ok (loc ++ '+' :: tag ++ '@' :: domain))
    (hloc : '+' ∉ loc) (hne : tag ≠ []) (hnl : '\n' ∉ tag) (hat : '@' ∉ domain) :
    parseAddress p input = .ok { Address := loc ++ '@' :: domain, Tag := tag } :=
  parseAddress_split p input loc tag domain hvalid hloc hne hnl hat

theorem parseAddress_tagged_witness :
    parseAddress bareAddress "bob+pin@x.com".toList
      = .ok { Address := "bob@x.com".toList, Tag := "pin".toList } :=
  parseAddress_tagged bareAddress "bob+pin@x.com".toList "bob".toList "pin".toList
    "x.com".toList rfl (by decide) (by decide) (by decide) (by decide)

/-- C1 fails when `local` contains a `+`: `a+b+c@x.com` is `local+tag@domain` for
`local = a+b`, `tag = c`, `domain = x.com`, and the result is Address `a@x.com`, Tag `b+c`,
not Address `a+b@x.com`, Tag `c`. -/
theorem parseAddress_plus_in_local :
    "a+b+c@x.com".toList = "a+b".toList ++ '+' :: "c".toList ++ '@' :: "x.com".toList ∧
    parseAddress bareAddress "a+b+c@x.com".toList
      = .ok { Address := "a@x.com".toList, Tag := "b+c".toList } ∧
    parseAddress bareAddress "a+b+c@x.com".toList
      ≠ .ok { Address := "a+b".toList ++ '@' :: "x.com".toList, Tag := "c".toList } := by
  refine ⟨rfl, rfl, ?_⟩
  intro h
  have h2 : parseAddress bareAddress "a+b+c@x.com".toList
      = .ok { Address := "a@x.com".toList, Tag := "b+c".toList } := rfl
  rw [h2] at h
  injection h with h
  injection h with h1 h3
  exact absurd h3 (by decide)

/-! ## Theorems: `mailHandler` -/

theorem Contains_iff (s sub : Str) : Contains s sub = true ↔ sub <:+: s := by
  unfold Contains
  rw [List.any_eq_true, List.infix_iff_prefix_suffix]
  constructor
  · rintro ⟨t, ht, hp⟩
    exact ⟨t, List.isPrefixOf_iff_prefix.mp hp, (List.mem_tails _ _).mp ht⟩
  · rintro ⟨t, hp, ht⟩
    exact ⟨t, (List.mem_tails _ _).mpr ht, List.isPrefixOf_iff_prefix.mpr hp⟩

theorem chanSend_target (queues : Queues) (t : Int) (item : queueItem) :
    (chanSend queues t item).target = some t := by
  unfold chanSend
  split
  · rfl
  · split <;> rfl

/-- When `mailHandler` reaches the send, the channel is the one of `tgid` at the canonical
sender address. -/
theorem mailHandler_target (p : Str → Except Str Str) (pm : Str → Except Str Message)
    (receivers : Receivers) (queues : Queues) (from_ : Str) (to_ : List Str) (data : Str)
    (t : Int)
    (h : (mailHandler p pm receivers queues from_ to_ data).target = some t) :
    ∃ a, parseAddress p from_ = .ok a ∧ t = tgid receivers a.Address := by
  unfold mailHandler at h
  split at h
  · simp [Outcome.target] at h
  · rename_i a ha
    refine ⟨a, ha, ?_⟩
    split at h
    · simp [Outcome.target] at h
    · split at h
      · simp [Outcome.target] at h
      · simp only at h
        split at h
        · simp [Outcome.target] at h
        · split at h
          · simp [Outcome.target] at h
          · split at h
            · simp [Outcome.target] at h
            · rw [chanSend_target] at h
              exact (Option.some.inj h).symm

/-- C2. In a registry with the wildcard key `*`, a canonical sender address without an entry
gets the id mapped to `*`: this is the value of `tgid`, and the channel `mailHandler` sends to
whenever it reaches the send. -/
theorem tgid_absent_is_wildcard (receivers : Receivers) (addr : Str) (w : Int)
    (hstar : mapGet receivers ['*'] = some w) (habs : mapGet receivers addr = none) :
    tgid receivers addr = w ∧
    ∀ (p : Str → Except Str Str) (pm : Str → Except Str Message) (queues : Queues)
      (from_ : Str) (to_ : List Str) (data : Str) (a : address) (t : Int),
      parseAddress p from_ = .ok a → a.Address = addr →
      (mailHandler p pm receivers queues from_ to_ data).target = some t → t = w := by
  have h1 : tgid receivers addr = w := by simp [tgid, hstar, habs]
  refine ⟨h1, ?_⟩
  intro p pm queues from_ to_ data a t ha haddr ht
  obtain ⟨a', ha', hta⟩ := mailHandler_target p pm receivers queues from_ to_ data t ht
  rw [ha] at ha'
  cases ha'
  rw [hta, haddr, h1]

theorem tgid_absent_is_wildcard_witness :
    tgid [("alice@x.com".toList, 111), (['*'], 999)] "bob@x.com".toList = 999 :=
  (tgid_absent_is_wildcard [("alice@x.com".toList, 111), (['*'], 999)] "bob@x.com".toList 999
    (by decide) (by decide)).1

/-- C3 fails for an entry whose id is 0: with the configuration `alice@x.com = "0"`, `* = "999"`
the registry maps `alice@x.com` to 0, yet the id chosen for `alice@x.com` is 999 and the mail is
put on the queue of 999. -/
theorem tgid_explicit_zero :
    main ParseInt [("alice@x.com".toList, "0".toList), (['*'], "999".toList)]
      = some ([("alice@x.com".toList, 0), (['*'], 999)], [(0, []), (999, [])]) ∧
    mapGet [("alice@x.com".toList, (0 : Int)), (['*'], 999)] "alice@x.com".toList = some 0 ∧
    tgid [("alice@x.com".toList, 0), (['*'], 999)] "alice@x.com".toList = 999 ∧
    (mailHandler bareAddress (fun _ => .ok ⟨"s".toList, [⟨"hello".toList, none⟩], []⟩)
      [("alice@x.com".toList, 0), (['*'], 999)] [(0, []), (999, [])]
      "alice@x.com".toList ["r@y.com".toList] "raw".toList).target = some 999 := by
  refine ⟨by decide, by decide, by decide, by decide⟩

/-- C3 (as amended). For an address with an explicit entry whose id is not 0 the id chosen is the
id of that entry; an entry whose id is 0 reads as a missing one and the wildcard id is chosen. -/
theorem tgid_explicit (receivers : Receivers) (addr : Str) (i : Int)
    (hentry : mapGet receivers addr = some i) :
    tgid receivers addr = (if i = 0 then (mapGet receivers ['*']).getD 0 else i) ∧
    ∀ (p : Str → Except Str Str) (pm : Str → Except Str Message) (queues : Queues)
      (from_ : Str) (to_ : List Str) (data : Str) (a : address) (t : Int),
      parseAddress p from_ = .ok a → a.Address = addr →
      (mailHandler p pm receivers queues from_ to_ data).target = some t →
      t = (if i = 0 then (mapGet receivers ['*']).getD 0 else i) := by
  have h1 : tgid receivers addr = (if i = 0 then (mapGet receivers ['*']).getD 0 else i) := by
    simp [tgid, hentry]
  refine ⟨h1, ?_⟩
  intro p pm queues from_ to_ data a t ha haddr ht
  obtain ⟨a', ha', hta⟩ := mailHandler_target p pm receivers queues from_ to_ data t ht
  rw [ha] at ha'
  cases ha'
  rw [hta, haddr, h1]

theorem tgid_explicit_witness :
    tgid [("alice@x.com".toList, 111), (['*'], 999)] "alice@x.com".toList
      = (if (111 : Int) = 0 then
          (mapGet [("alice@x.com".toList, (111 : Int)), (['*'], 999)] ['*']).getD 0
        else 111) :=
  (tgid_explicit [("alice@x.com".toList, 111), (['*'], 999)] "alice@x.com".toList 111
    (by decide)).1

/-- C4, on the code. For a valid sender, at least one recipient and a decoded message without
textual parts, `mailHandler` does not return: the read of `textMsgs[0]` on line 171 comes before
the test of line 180 and is out of range. -/
theorem mailHandler_no_text_panics (p : Str → Except Str Str) (pm : Str → Except Str Message)
    (receivers : Receivers) (queues : Queues) (from_ : Str) (to0 : Str) (toRest : List Str)
    (data : Str) (a : address) (msg : Message)
    (hfrom : parseAddress p from_ = .ok a) (hmsg : pm data = .ok msg)
    (htext : msg.text = []) :
    mailHandler p pm receivers queues from_ (to0 :: toRest) data = Outcome.panicked := by
  unfold mailHandler
  simp only [hfrom, hmsg, htext]

theorem mailHandler_no_text_panics_witness :
    mailHandler bareAddress (fun _ => .ok ⟨"s".toList, [], []⟩)
      [(['*'], 999)] [(999, [])] "alice@x.com".toList ["r@y.com".toList] "raw".toList
      = Outcome.panicked :=
  mailHandler_no_text_panics bareAddress (fun _ => .ok ⟨"s".toList, [], []⟩)
    [(['*'], 999)] [(999, [])] "alice@x.com".toList "r@y.com".toList [] "raw".toList
    ⟨"alice@x.com".toList, []⟩ ⟨"s".toList, [], []⟩ rfl rfl rfl

/-- C5 fails when the phrase is in a textual part other than the first: the message with the
textual parts `hello` and `Face Recognition Clear` is put on the queue. -/
theorem mailHandler_sentinel_in_second_part :
    Contains "Face Recognition Clear".toList sentinel = true ∧
    mailHandler bareAddress
      (fun _ => .ok ⟨"s".toList, [⟨"hello".toList, none⟩, ⟨"Face Recognition Clear".toList, none⟩], []⟩)
      [(['*'], 999)] [(999, [])] "alice@x.com".toList ["r@y.com".toList] "raw".toList
      = Outcome.enqueued 999
          { from_ := "alice@x.com".toList, isPin := false, to_ := ["r@y.com".toList],
            msg := ⟨"s".toList, [⟨"hello".toList, none⟩, ⟨"Face Recognition Clear".toList, none⟩], []⟩,
            data := "raw".toList }
          [(999, [queueItem.mk "alice@x.com".toList false ["r@y.com".toList]
            ⟨"s".toList, [⟨"hello".toList, none⟩, ⟨"Face Recognition Clear".toList, none⟩], []⟩
            "raw".toList])] := by
  refine ⟨by decide, by decide⟩

/-- C5 (as amended). A decoded message whose first textual part has a body containing the phrase
`Face Recognition Clear` is dropped by `mailHandler` without a send on any queue, whatever its
image parts. -/
theorem mailHandler_sentinel_first (p : Str → Except Str Str) (pm : Str → Except Str Message)
    (receivers : Receivers) (queues : Queues) (from_ : Str) (to0 : Str) (toRest : List Str)
    (data : Str) (msg : Message) (first : Part) (rest : List Part)
    (hmsg : pm data = .ok msg) (htext : msg.text = first :: rest)
    (hphrase : sentinel <:+: first.Body) :
    mailHandler p pm receivers queues from_ (to0 :: toRest) data = Outcome.dropped := by
  have hc : Contains first.Body sentinel = true := (Contains_iff _ _).mpr hphrase
  unfold mailHandler
  cases hpa : parseAddress p from_ with
  | error e => rfl
  | ok a => simp only [hmsg, htext, hc, if_true]

theorem mailHandler_sentinel_first_witness :
    mailHandler bareAddress
      (fun _ => .ok ⟨"s".toList, [⟨"Face Recognition Clear".toList, none⟩],
        [⟨"img".toList, some "a.jpg".toList⟩]⟩)
      [(['*'], 999)] [(999, [])] "alice@x.com".toList ["r@y.com".toList] "raw".toList
      = Outcome.dropped :=
  mailHandler_sentinel_first bareAddress
    (fun _ => .ok ⟨"s".toList, [⟨"Face Recognition Clear".toList, none⟩],
        [⟨"img".toList, some "a.jpg".toList⟩]⟩)
    [(['*'], 999)] [(999, [])] "alice@x.com".toList "r@y.com".toList [] "raw".toList
    ⟨"s".toList, [⟨"Face Recognition Clear".toList, none⟩], [⟨"img".toList, some "a.jpg".toList⟩]⟩
    ⟨"Face Recognition Clear".toList, none⟩ [] rfl rfl ⟨[], [], rfl⟩

/-! ## Theorems: `handleQueue` -/

/-- The calls of the loop over the images do not depend on the results of the calls. -/
theorem sendImages_calls {W : Type} (sv : Services W) (id : Int) (images : List Part) (w : W) :
    (sendImages sv id images w).2 = photoCalls id images := by
  induction images generalizing w with
  | nil => rfl
  | cons part rest ih =>
    unfold sendImages
    cases hcd : part.ContentDisposition with
    | none =>
      simp only [photoCalls, List.filterMap_cons, hcd, Option.map_none']
      exact ih w
    | some text =>
      simp only [photoCalls, List.filterMap_cons, hcd, Option.map_some', List.cons.injEq,
        true_and]
      exact ih _

theorem mailFallback_calls {W : Type} (sv : Services W) (fb : Fallback) (w : W)
    (from_ : Str) (to_ : List Str) (data : Str) :
    (mailFallback sv fb w from_ to_ data).2 =
      if fb.isFallback then [Call.SendMail (fb.host ++ ':' :: fb.port) from_ to_ data] else [] := by
  unfold mailFallback
  cases fb.isFallback <;> rfl

/-- An item without a textual part gives its photo messages only. -/
theorem processItem_nil {W : Type} (sv : Services W) (fb : Fallback) (id : Int)
    (item : queueItem) (w : W) (htext : item.msg.text = []) :
    (processItem sv fb id item w).2 = photoCalls id item.msg.image := by
  unfold processItem
  simp only [htext]
  exact sendImages_calls sv id _ w

theorem processItem_error {W : Type} (sv : Services W) (fb : Fallback) (id : Int)
    (item : queueItem) (w w1 : W) (first : Part) (rest : List Part) (err : Str)
    (htext : item.msg.text = first :: rest)
    (hsend : sv.Send w (Chattable.MessageConfig id
      ('*' :: item.msg.Subject ++ "*\n\n".toList ++ first.Body) ModeMarkdown) = (w1, .error err)) :
    processItem sv fb id item w =
      ((mailFallback sv fb w1 item.from_ item.to_ item.data).1,
        Call.Send (Chattable.MessageConfig id
          ('*' :: item.msg.Subject ++ "*\n\n".toList ++ first.Body) ModeMarkdown)
        :: Call.mailFallback item.from_ item.to_ item.data
        :: (mailFallback sv fb w1 item.from_ item.to_ item.data).2) := by
  unfold processItem
  simp only [htext, hsend]

theorem processItem_ok {W : Type} (sv : Services W) (fb : Fallback) (id : Int)
    (item : queueItem) (w w1 : W) (first : Part) (rest : List Part) (messageID : Int)
    (htext : item.msg.text = first :: rest)
    (hsend : sv.Send w (Chattable.MessageConfig id
      ('*' :: item.msg.Subject ++ "*\n\n".toList ++ first.Body) ModeMarkdown)
        = (w1, .ok messageID)) :
    (processItem sv fb id item w).2 =
      Call.Send (Chattable.MessageConfig id
          ('*' :: item.msg.Subject ++ "*\n\n".toList ++ first.Body) ModeMarkdown)
        :: ((if item.isPin then [Call.PinChatMessage ⟨id, messageID, true⟩] else [])
          ++ photoCalls id item.msg.image) := by
  unfold processItem
  simp only [htext, hsend]
  cases item.isPin
  · simp [sendImages_calls]
  · simp [sendImages_calls]

theorem handleQueueCycle_cons {W : Type} (sv : Services W) (fb : Fallback) (id : Int)
    (item : queueItem) (items : List queueItem) (rest : Queues) (w : W) (n : Nat) :
    (handleQueueCycle sv fb ((id, item :: items) :: rest) w n).calls =
      (processItem sv fb id item w).2 ++
        (handleQueueCycle sv fb rest (processItem sv fb id item w).1 (n + items.length)).calls := by
  rw [handleQueueCycle]

theorem handleQueueCycle_empty {W : Type} (sv : Services W) (fb : Fallback) (id : Int)
    (rest : Queues) (w : W) (n : Nat) :
    (handleQueueCycle sv fb ((id, []) :: rest) w n).calls =
      (handleQueueCycle sv fb rest w n).calls := by
  rw [handleQueueCycle]

/-- C6. For a dequeued item with a textual part whose text send fails, the calls made for the
item are the one text send, one call of `mailFallback` with the `from`, `to` and `data` of the
item, and the mail `mailFallback` sends when a fallback is configured: no second text send, no
pin call, no photo send, whatever the image parts. The cycle then goes on with the next queue. -/
theorem processItem_send_fails {W : Type} (sv : Services W) (fb : Fallback) (id : Int)
    (item : queueItem) (w w1 : W) (first : Part) (rest : List Part) (err : Str)
    (htext : item.msg.text = first :: rest)
    (hsend : sv.Send w (Chattable.MessageConfig id
      ('*' :: item.msg.Subject ++ "*\n\n".toList ++ first.Body) ModeMarkdown) = (w1, .error err)) :
    (processItem sv fb id item w).2 =
      Call.Send (Chattable.MessageConfig id
          ('*' :: item.msg.Subject ++ "*\n\n".toList ++ first.Body) ModeMarkdown)
        :: Call.mailFallback item.from_ item.to_ item.data
        :: (if fb.isFallback then
              [Call.SendMail (fb.host ++ ':' :: fb.port) item.from_ item.to_ item.data]
            else []) ∧
    ∀ (items : List queueItem) (queues : Queues) (n : Nat),
      (handleQueueCycle sv fb ((id, item :: items) :: queues) w n).calls =
        Call.Send (Chattable.MessageConfig id
            ('*' :: item.msg.Subject ++ "*\n\n".toList ++ first.Body) ModeMarkdown)
          :: Call.mailFallback item.from_ item.to_ item.data
          :: ((if fb.isFallback then
                [Call.SendMail (fb.host ++ ':' :: fb.port) item.from_ item.to_ item.data]
              else [])
            ++ (handleQueueCycle sv fb queues
                (mailFallback sv fb w1 item.from_ item.to_ item.data).1
                (n + items.length)).calls) := by
  have hp := processItem_error sv fb id item w w1 first rest err htext hsend
  constructor
  · rw [hp, mailFallback_calls]
  · intro items queues n
    rw [handleQueueCycle_cons, hp, mailFallback_calls]
    simp

theorem processItem_send_fails_witness :
    (processItem allFail ⟨true, "mx".toList, "25".toList⟩ 999
      ⟨"bob@x.com".toList, true, ["r@y.com".toList],
        ⟨"s".toList, [⟨"hello".toList, none⟩], [⟨"img".toList, some "a.jpg".toList⟩]⟩,
        "raw".toList⟩ ()).2 =
      [Call.Send (Chattable.MessageConfig 999 "*s*\n\nhello".toList ModeMarkdown),
        Call.mailFallback "bob@x.com".toList ["r@y.com".toList] "raw".toList,
        Call.SendMail "mx:25".toList "bob@x.com".toList ["r@y.com".toList] "raw".toList] :=
  (processItem_send_fails allFail ⟨true, "mx".toList, "25".toList⟩ 999
      ⟨"bob@x.com".toList, true, ["r@y.com".toList],
        ⟨"s".toList, [⟨"hello".toList, none⟩], [⟨"img".toList, some "a.jpg".toList⟩]⟩,
        "raw".toList⟩ () () ⟨"hello".toList, none⟩ [] "send".toList rfl rfl).1

theorem not_pin_mem_photoCalls (id : Int) (images : List Part) (c : PinChatMessageConfig) :
    Call.PinChatMessage c ∉ photoCalls id images := by
  intro h
  unfold photoCalls at h
  rw [List.mem_filterMap] at h
  obtain ⟨part, _, hpart⟩ := h
  cases hcd : part.ContentDisposition with
  | none => simp [hcd] at hpart
  | some text => simp [hcd] at hpart

theorem not_pin_mem_mailFallback {W : Type} (sv : Services W) (fb : Fallback) (w : W)
    (from_ : Str) (to_ : List Str) (data : Str) (c : PinChatMessageConfig) :
    Call.PinChatMessage c ∉ (mailFallback sv fb w from_ to_ data).2 := by
  rw [mailFallback_calls]
  cases fb.isFallback <;> simp

/-- C7. (1) When the tag of the sender is `pin` and the mail reaches a queue with room, the item
put on the queue has `isPin = true`. (2) For a dequeued item with `isPin = true` whose text send
succeeds with message id `messageID`, the calls made for the item are the text send, one pin call
for `messageID` with notification disabled, and then the photo sends of the image parts, which do
not depend on the result of the pin call. (3) For an item with `isPin = false` no pin call is
made. -/
theorem pin_tag_pins :
    (∀ (p : Str → Except Str Str) (pm : Str → Except Str Message) (receivers : Receivers)
      (queues : Queues) (from_ : Str) (to0 : Str) (toRest : List Str) (data : Str) (a : address)
      (msg : Message) (first : Part) (rest : List Part) (items : List queueItem),
      parseAddress p from_ = .ok a → a.Tag = "pin".toList → pm data = .ok msg →
      msg.text = first :: rest → ¬ sentinel <:+: first.Body →
      mapGet queues (tgid receivers a.Address) = some items → items.length < queueLength →
      mailHandler p pm receivers queues from_ (to0 :: toRest) data =
        Outcome.enqueued (tgid receivers a.Address)
          (queueItem.mk a.Address true (Trim to0 " ><".toList :: toRest) msg data)
          (mapSet queues (tgid receivers a.Address)
            (items ++ [queueItem.mk a.Address true (Trim to0 " ><".toList :: toRest) msg data]))) ∧
    (∀ (W : Type) (sv : Services W) (fb : Fallback) (id : Int) (item : queueItem) (w w1 : W)
      (first : Part) (rest : List Part) (messageID : Int),
      item.isPin = true → item.msg.text = first :: rest →
      sv.Send w (Chattable.MessageConfig id
        ('*' :: item.msg.Subject ++ "*\n\n".toList ++ first.Body) ModeMarkdown)
          = (w1, .ok messageID) →
      (processItem sv fb id item w).2 =
        Call.Send (Chattable.MessageConfig id
            ('*' :: item.msg.Subject ++ "*\n\n".toList ++ first.Body) ModeMarkdown)
          :: Call.PinChatMessage ⟨id, messageID, true⟩
          :: photoCalls id item.msg.image) ∧
    (∀ (W : Type) (sv : Services W) (fb : Fallback) (id : Int) (item : queueItem) (w : W)
      (c : PinChatMessageConfig),
      item.isPin = false → Call.PinChatMessage c ∉ (processItem sv fb id item w).2) := by
  refine ⟨?_, ?_, ?_⟩
  · intro p pm receivers queues from_ to0 toRest data a msg first rest items
      ha htag hmsg htext hphrase hq hroom
    have hc : Contains first.Body sentinel = false := by
      cases h : Contains first.Body sentinel with
      | false => rfl
      | true => exact absurd ((Contains_iff _ _).mp h) hphrase
    unfold mailHandler
    simp only [ha, hmsg, htext, hc, chanSend, hq, hroom, htag]
    simp
  · intro W sv fb id item w w1 first rest messageID hpin htext hsend
    rw [processItem_ok sv fb id item w w1 first rest messageID htext hsend, hpin]
    simp
  · intro W sv fb id item w c hpin hmem
    cases htext : item.msg.text with
    | nil =>
      rw [processItem_nil sv fb id item w htext] at hmem
      exact not_pin_mem_photoCalls _ _ _ hmem
    | cons first rest =>
      cases hsend : sv.Send w (Chattable.MessageConfig id
        ('*' :: item.msg.Subject ++ "*\n\n".toList ++ first.Body) ModeMarkdown) with
      | mk w1 res =>
        cases res with
        | error err =>
          rw [processItem_error sv fb id item w w1 first rest err htext hsend] at hmem
          simp only [List.mem_cons, reduceCtorEq, false_or] at hmem
          exact not_pin_mem_mailFallback _ _ _ _ _ _ _ hmem
        | ok messageID =>
          rw [processItem_ok sv fb id item w w1 first rest messageID htext hsend, hpin] at hmem
          simp only [List.mem_cons, reduceCtorEq, false_or, Bool.false_eq_true, if_false,
            List.nil_append] at hmem
          exact not_pin_mem_photoCalls _ _ _ hmem

theorem pin_tag_pins_witness :
    mailHandler bareAddress
      (fun _ => .ok ⟨"s".toList, [⟨"hello".toList, none⟩], [⟨"img".toList, some "a.jpg".toList⟩]⟩)
      [("alice@x.com".toList, 111), (['*'], 999)] [(111, []), (999, [])]
      "bob+pin@x.com".toList ("<r@y.com>".toList :: []) "raw".toList =
      Outcome.enqueued 999
        (queueItem.mk "bob@x.com".toList true ["r@y.com".toList]
          ⟨"s".toList, [⟨"hello".toList, none⟩], [⟨"img".toList, some "a.jpg".toList⟩]⟩
          "raw".toList)
        [(111, []), (999, [queueItem.mk "bob@x.com".toList true ["r@y.com".toList]
          ⟨"s".toList, [⟨"hello".toList, none⟩], [⟨"img".toList, some "a.jpg".toList⟩]⟩
          "raw".toList])] ∧
    (processItem allOk ⟨false, [], []⟩ 999
      (queueItem.mk "bob@x.com".toList true ["r@y.com".toList]
        ⟨"s".toList, [⟨"hello".toList, none⟩], [⟨"img".toList, some "a.jpg".toList⟩]⟩
        "raw".toList) ()).2 =
      [Call.Send (Chattable.MessageConfig 999 "*s*\n\nhello".toList ModeMarkdown),
        Call.PinChatMessage ⟨999, 7, true⟩,
        Call.Send (Chattable.PhotoConfig 999 "a.jpg".toList "img".toList "a.jpg".toList true)] :=
  ⟨pin_tag_pins.1 bareAddress
      (fun _ => .ok ⟨"s".toList, [⟨"hello".toList, none⟩], [⟨"img".toList, some "a.jpg".toList⟩]⟩)
      [("alice@x.com".toList, 111), (['*'], 999)] [(111, []), (999, [])]
      "bob+pin@x.com".toList "<r@y.com>".toList [] "raw".toList
      ⟨"bob@x.com".toList, "pin".toList⟩
      ⟨"s".toList, [⟨"hello".toList, none⟩], [⟨"img".toList, some "a.jpg".toList⟩]⟩
      ⟨"hello".toList, none⟩ [] [] rfl rfl rfl rfl (by decide) (by decide) (by decide),
    pin_tag_pins.2.1 Unit allOk ⟨false, [], []⟩ 999
      (queueItem.mk "bob@x.com".toList true ["r@y.com".toList]
        ⟨"s".toList, [⟨"hello".toList, none⟩], [⟨"img".toList, some "a.jpg".toList⟩]⟩
        "raw".toList) () () ⟨"hello".toList, none⟩ [] 7 rfl rfl rfl⟩

theorem textSends_append (a b : List Call) : textSends (a ++ b) = textSends a + textSends b :=
  List.countP_append _ a b

theorem textSendsTo_append (id : Int) (a b : List Call) :
    textSendsTo id (a ++ b) = textSendsTo id a + textSendsTo id b :=
  List.countP_append _ a b

theorem textSends_photoCalls (id : Int) (images : List Part) :
    textSends (photoCalls id images) = 0 := by
  unfold textSends
  rw [List.countP_eq_zero]
  intro c hc
  unfold photoCalls at hc
  rw [List.mem_filterMap] at hc
  obtain ⟨part, _, hpart⟩ := hc
  cases hcd : part.ContentDisposition with
  | none => simp [hcd] at hpart
  | some text =>
    simp only [hcd, Option.map_some', Option.some.injEq] at hpart
    subst hpart
    simp [isTextSend]

theorem textSendsTo_photoCalls (id' id : Int) (images : List Part) :
    textSendsTo id' (photoCalls id images) = 0 := by
  unfold textSendsTo
  rw [List.countP_eq_zero]
  intro c hc
  unfold photoCalls at hc
  rw [List.mem_filterMap] at hc
  obtain ⟨part, _, hpart⟩ := hc
  cases hcd : part.ContentDisposition with
  | none => simp [hcd] at hpart
  | some text =>
    simp only [hcd, Option.map_some', Option.some.injEq] at hpart
    subst hpart
    simp [isTextSendTo]

/-- The calls made for one item hold one text send when the item has a textual part and none
otherwise. -/
theorem textSends_processItem {W : Type} (sv : Services W) (fb : Fallback) (id : Int)
    (item : queueItem) (w : W) :
    textSends (processItem sv fb id item w).2 = if item.msg.text = [] then 0 else 1 := by
  cases htext : item.msg.text with
  | nil =>
    rw [processItem_nil sv fb id item w htext, textSends_photoCalls]
    rfl
  | cons first rest =>
    have hph := textSends_photoCalls id item.msg.image
    unfold textSends at hph
    cases hsend : sv.Send w (Chattable.MessageConfig id
      ('*' :: item.msg.Subject ++ "*\n\n".toList ++ first.Body) ModeMarkdown) with
    | mk w1 res =>
      cases res with
      | error err =>
        rw [processItem_error sv fb id item w w1 first rest err htext hsend, mailFallback_calls]
        cases fb.isFallback <;> simp [textSends, List.countP_cons, isTextSend]
      | ok messageID =>
        rw [processItem_ok sv fb id item w w1 first rest messageID htext hsend]
        cases item.isPin <;> simp [textSends, List.countP_cons, isTextSend, hph]

/-- The text sends made for one item go to the destination of its queue. -/
theorem textSendsTo_processItem {W : Type} (sv : Services W) (fb : Fallback) (id' id : Int)
    (item : queueItem) (w : W) :
    textSendsTo id' (processItem sv fb id item w).2 ≤ if id = id' then 1 else 0 := by
  cases htext : item.msg.text with
  | nil =>
    rw [processItem_nil sv fb id item w htext, textSendsTo_photoCalls]
    exact Nat.zero_le _
  | cons first rest =>
    have hph : ∀ i, List.countP (isTextSendTo id') (photoCalls i item.msg.image) = 0 :=
      fun i => textSendsTo_photoCalls id' i item.msg.image
    cases hsend : sv.Send w (Chattable.MessageConfig id
      ('*' :: item.msg.Subject ++ "*\n\n".toList ++ first.Body) ModeMarkdown) with
    | mk w1 res =>
      cases res with
      | error err =>
        rw [processItem_error sv fb id item w w1 first rest err htext hsend, mailFallback_calls]
        cases fb.isFallback <;> by_cases hid : id = id' <;>
          simp [textSendsTo, List.countP_cons, isTextSendTo, hid]
      | ok messageID =>
        rw [processItem_ok sv fb id item w w1 first rest messageID htext hsend]
        cases item.isPin <;> by_cases hid : id = id' <;>
          simp only [textSendsTo, List.countP_cons, List.countP_append, List.countP_nil,
            isTextSendTo, hph, hid, if_true, if_false, Bool.false_eq_true, List.nil_append,
            decide_True, decide_False, decide_eq_true_eq] <;> simp

theorem textSends_cycle_le {W : Type} (sv : Services W) (fb : Fallback) (queues : Queues)
    (w : W) (n : Nat) :
    textSends (handleQueueCycle sv fb queues w n).calls
      ≤ (queues.filter (fun q => !q.2.isEmpty)).length := by
  induction queues generalizing w n with
  | nil => simp [handleQueueCycle, textSends]
  | cons q rest ih =>
    obtain ⟨id, items⟩ := q
    cases items with
    | nil =>
      rw [handleQueueCycle_empty]
      simpa using ih w n
    | cons item items =>
      rw [handleQueueCycle_cons, textSends_append, textSends_processItem]
      have := ih (processItem sv fb id item w).1 (n + items.length)
      simp only [List.filter_cons, List.isEmpty_cons, Bool.not_false, if_true, List.length_cons]
      split <;> omega

theorem textSendsTo_cycle_le {W : Type} (sv : Services W) (fb : Fallback) (id' : Int)
    (queues : Queues) (w : W) (n : Nat) :
    textSendsTo id' (handleQueueCycle sv fb queues w n).calls
      ≤ (queues.map Prod.fst).count id' := by
  induction queues generalizing w n with
  | nil => simp [handleQueueCycle, textSendsTo]
  | cons q rest ih =>
    obtain ⟨id, items⟩ := q
    cases items with
    | nil =>
      rw [handleQueueCycle_empty]
      have := ih w n
      simp only [List.map_cons, List.count_cons]
      omega
    | cons item items =>
      rw [handleQueueCycle_cons, textSendsTo_append]
      have h1 := textSendsTo_processItem sv fb id' id item w
      have h2 := ih (processItem sv fb id item w).1 (n + items.length)
      rw [List.map_cons, List.count_cons]
      by_cases hid : id = id'
      · rw [if_pos hid] at h1
        have hb : (id == id') = true := by simp [hid]
        rw [if_pos hb]
        omega
      · rw [if_neg hid] at h1
        have hb : ¬ (id == id') = true := by simp [hid]
        rw [if_neg hb]
        omega

theorem textSends_busyQueues (ids : List Nat) (fb : Fallback) (n : Nat) :
    textSends (handleQueueCycle allOk fb (ids.map (fun (i : Nat) => (Int.ofNat i, [textItem]))) () n).calls
      = ids.length := by
  induction ids generalizing n with
  | nil => rfl
  | cons i rest ih =>
    rw [List.map_cons, handleQueueCycle_cons, textSends_append, textSends_processItem]
    have := ih (n + ([] : List queueItem).length)
    simp only [List.length_cons]
    rw [this]
    simp [textItem]
    omega

/-- C8 fails: no bound on the text sends of one cycle holds for every state of the queues. With
21 destinations that each hold an item with a textual part one cycle makes 21 text sends, and
with `B + 1` such destinations it makes `B + 1`. -/
theorem textSends_cycle_unbounded :
    textSends (handleQueueCycle allOk ⟨false, [], []⟩ (busyQueues 21) () 0).calls = 21 ∧
    ¬ ∃ B : Nat, ∀ queues : Queues,
      textSends (handleQueueCycle allOk ⟨false, [], []⟩ queues () 0).calls ≤ B := by
  refine ⟨by unfold busyQueues; rw [textSends_busyQueues, List.length_range], ?_⟩
  rintro ⟨B, hB⟩
  have h := hB (busyQueues (B + 1))
  have hlen : textSends (handleQueueCycle allOk ⟨false, [], []⟩ (busyQueues (B + 1)) () 0).calls
      = B + 1 := by
    unfold busyQueues
    rw [textSends_busyQueues, List.length_range]
  omega

/-- C8 (as amended). One dispatch cycle makes at most one text send for each non-empty queue, so
at most as many as there are destinations, and at most one to each destination. -/
theorem textSends_cycle_per_destination {W : Type} (sv : Services W) (fb : Fallback)
    (queues : Queues) (w : W) (n : Nat) (hkeys : (queues.map Prod.fst).Nodup) :
    textSends (handleQueueCycle sv fb queues w n).calls
      ≤ (queues.filter (fun q => !q.2.isEmpty)).length ∧
    textSends (handleQueueCycle sv fb queues w n).calls ≤ queues.length ∧
    ∀ id : Int, textSendsTo id (handleQueueCycle sv fb queues w n).calls ≤ 1 := by
  refine ⟨textSends_cycle_le sv fb queues w n, ?_, ?_⟩
  · exact le_trans (textSends_cycle_le sv fb queues w n) (List.length_filter_le _ _)
  · intro id
    exact le_trans (textSendsTo_cycle_le sv fb id queues w n)
      (List.nodup_iff_count_le_one.mp hkeys id)

theorem textSends_cycle_per_destination_witness :
    textSends (handleQueueCycle allOk ⟨false, [], []⟩
      [(111, [textItem, textItem]), (999, [])] () 0).calls ≤ 2 :=
  (textSends_cycle_per_destination allOk ⟨false, [], []⟩
    [(111, [textItem, textItem]), (999, [])] () 0 (by decide)).2.1

/-- The items left on the queues by one cycle. -/
theorem handleQueueCycle_tails {W : Type} (sv : Services W) (fb : Fallback) (queues : Queues)
    (w : W) (n : Nat) :
    (handleQueueCycle sv fb queues w n).queues = queues.map (fun q => (q.1, q.2.tail)) := by
  induction queues generalizing w n with
  | nil => rfl
  | cons q rest ih =>
    obtain ⟨id, items⟩ := q
    cases items with
    | nil =>
      rw [handleQueueCycle]
      simp [ih]
    | cons item items =>
      rw [handleQueueCycle]
      simp [ih]

/-- The oldest item of every non-empty queue is processed in the cycle. -/
theorem handleQueueCycle_processes {W : Type} (sv : Services W) (fb : Fallback) (queues : Queues)
    (w : W) (n : Nat) (id : Int) (item : queueItem) (items : List queueItem)
    (hmem : (id, item :: items) ∈ queues) :
    ∃ w' : W, (processItem sv fb id item w').2 <:+: (handleQueueCycle sv fb queues w n).calls := by
  induction queues generalizing w n with
  | nil => cases hmem
  | cons q rest ih =>
    obtain ⟨id0, items0⟩ := q
    cases items0 with
    | nil =>
      rw [handleQueueCycle_empty]
      rcases List.mem_cons.mp hmem with h | h
      · cases h
      · exact ih w n h
    | cons item0 items0 =>
      rw [handleQueueCycle_cons]
      rcases List.mem_cons.mp hmem with h | h
      · cases h
        exact ⟨w, (List.prefix_append _ _).isInfix⟩
      · obtain ⟨w', hw'⟩ := ih (processItem sv fb id0 item0 w).1 (n + items0.length) h
        exact ⟨w', hw'.trans (List.suffix_append _ _).isInfix⟩

/-- The calls made for one item, whatever the calls return: the photo sends alone for an item
without a textual part; else the text send followed either by the fallback (the send failed) or
by the pin call, if asked for, and the photo sends (the send gave a message id). -/
theorem processItem_calls_shape {W : Type} (sv : Services W) (fb : Fallback) (id : Int)
    (item : queueItem) (w : W) :
    (item.msg.text = [] ∧ (processItem sv fb id item w).2 = photoCalls id item.msg.image) ∨
    ∃ (first : Part) (rest : List Part), item.msg.text = first :: rest ∧
      ((processItem sv fb id item w).2 =
          Call.Send (Chattable.MessageConfig id
              ('*' :: item.msg.Subject ++ "*\n\n".toList ++ first.Body) ModeMarkdown)
            :: Call.mailFallback item.from_ item.to_ item.data
            :: (if fb.isFallback then
                  [Call.SendMail (fb.host ++ ':' :: fb.port) item.from_ item.to_ item.data]
                else []) ∨
        ∃ messageID : Int, (processItem sv fb id item w).2 =
          Call.Send (Chattable.MessageConfig id
              ('*' :: item.msg.Subject ++ "*\n\n".toList ++ first.Body) ModeMarkdown)
            :: ((if item.isPin then [Call.PinChatMessage ⟨id, messageID, true⟩] else [])
              ++ photoCalls id item.msg.image)) := by
  cases htext : item.msg.text with
  | nil => exact Or.inl ⟨rfl, processItem_nil sv fb id item w htext⟩
  | cons first rest =>
    refine Or.inr ⟨first, rest, rfl, ?_⟩
    cases hsend : sv.Send w (Chattable.MessageConfig id
      ('*' :: item.msg.Subject ++ "*\n\n".toList ++ first.Body) ModeMarkdown) with
    | mk w1 res =>
      cases res with
      | error err =>
        left
        rw [processItem_error sv fb id item w w1 first rest err htext hsend, mailFallback_calls]
      | ok messageID =>
        right
        exact ⟨messageID, processItem_ok sv fb id item w w1 first rest messageID htext hsend⟩

/-- C9. With no sender running at the same time, one dispatch cycle removes the oldest item of
every non-empty queue, keeps the other items of the queue in their order and leaves an empty
queue empty, whatever the calls return. The oldest item of every non-empty queue is processed in
that cycle: when it has a textual part, the text message made of its subject and its first
textual part is sent to the id of its queue; and the calls of the cycle hold, in one run, all the
calls of that item: the photo sends alone when it has no textual part, else the text send
followed by the fallback, or by the pin call, if asked for, and the photo sends. -/
theorem handleQueueCycle_queues {W : Type} (sv : Services W) (fb : Fallback) (queues : Queues)
    (w : W) (n : Nat) :
    (handleQueueCycle sv fb queues w n).queues = queues.map (fun q => (q.1, q.2.tail)) ∧
    ∀ (id : Int) (item : queueItem) (items : List queueItem), (id, item :: items) ∈ queues →
      (∀ (first : Part) (rest : List Part), item.msg.text = first :: rest →
        Call.Send (Chattable.MessageConfig id
            ('*' :: item.msg.Subject ++ "*\n\n".toList ++ first.Body) ModeMarkdown)
          ∈ (handleQueueCycle sv fb queues w n).calls) ∧
      ∃ seg : List Call, seg <:+: (handleQueueCycle sv fb queues w n).calls ∧
        ((item.msg.text = [] ∧ seg = photoCalls id item.msg.image) ∨
          ∃ (first : Part) (rest : List Part), item.msg.text = first :: rest ∧
            (seg =
                Call.Send (Chattable.MessageConfig id
                    ('*' :: item.msg.Subject ++ "*\n\n".toList ++ first.Body) ModeMarkdown)
                  :: Call.mailFallback item.from_ item.to_ item.data
                  :: (if fb.isFallback then
                        [Call.SendMail (fb.host ++ ':' :: fb.port) item.from_ item.to_
                          item.data]
                      else []) ∨
              ∃ messageID : Int, seg =
                Call.Send (Chattable.MessageConfig id
                    ('*' :: item.msg.Subject ++ "*\n\n".toList ++ first.Body) ModeMarkdown)
                  :: ((if item.isPin then [Call.PinChatMessage ⟨id, messageID, true⟩] else [])
                    ++ photoCalls id item.msg.image))) := by
  refine ⟨handleQueueCycle_tails sv fb queues w n, ?_⟩
  intro id item items hmem
  obtain ⟨w', hw'⟩ := handleQueueCycle_processes sv fb queues w n id item items hmem
  have hshape := processItem_calls_shape sv fb id item w'
  refine ⟨?_, (processItem sv fb id item w').2, hw', hshape⟩
  intro first rest htext
  apply hw'.subset
  rcases hshape with ⟨hnil, _⟩ | ⟨first', rest', htext', hseg | ⟨messageID, hseg⟩⟩
  · rw [htext] at hnil
    cases hnil
  · rw [htext] at htext'
    cases htext'
    rw [hseg]
    exact List.mem_cons_self _ _
  · rw [htext] at htext'
    cases htext'
    rw [hseg]
    exact List.mem_cons_self _ _

theorem handleQueueCycle_queues_witness :
    (handleQueueCycle allFail ⟨false, [], []⟩
      [(111, [textItem, textItem]), (5, []), (999, [textItem])] () 0).queues
      = [(111, [textItem]), (5, []), (999, [])] ∧
    Call.Send (Chattable.MessageConfig 999 "*s*\n\nhello".toList ModeMarkdown)
      ∈ (handleQueueCycle allFail ⟨false, [], []⟩
          [(111, [textItem, textItem]), (5, []), (999, [textItem])] () 0).calls :=
  ⟨(handleQueueCycle_queues allFail ⟨false, [], []⟩
      [(111, [textItem, textItem]), (5, []), (999, [textItem])] () 0).1,
    ((handleQueueCycle_queues allFail ⟨false, [], []⟩
      [(111, [textItem, textItem]), (5, []), (999, [textItem])] () 0).2
        999 textItem [] (by decide)).1 ⟨"hello".toList, none⟩ [] rfl⟩

/-! ## Theorems: startup -/

theorem mapGet_mapSet_self {κ ν : Type} [DecidableEq κ] (m : List (κ × ν)) (k : κ) (v : ν) :
    mapGet (mapSet m k v) k = some v := by
  induction m with
  | nil => simp [mapSet, mapGet]
  | cons e rest ih =>
    obtain ⟨k', w⟩ := e
    by_cases h : k' = k
    · simp [mapSet, mapGet, h]
    · simp [mapSet, mapGet, h, ih]

theorem mapGet_mapSet_of_ne {κ ν : Type} [DecidableEq κ] (m : List (κ × ν)) (k k' : κ) (v : ν)
    (hne : k ≠ k') : mapGet (mapSet m k v) k' = mapGet m k' := by
  induction m with
  | nil => simp [mapSet, mapGet, hne]
  | cons e rest ih =>
    obtain ⟨k'', w⟩ := e
    by_cases h : k'' = k
    · subst h
      simp [mapSet, mapGet, hne]
    · by_cases h' : k'' = k'
      · subst h'
        simp [mapSet, mapGet, h]
      · simp [mapSet, mapGet, h, h', ih]

theorem mapGet_isSome_iff_mem_keys {κ ν : Type} [DecidableEq κ] (m : List (κ × ν)) (k : κ) :
    (mapGet m k).isSome = true ↔ k ∈ m.map Prod.fst := by
  induction m with
  | nil => simp [mapGet]
  | cons e rest ih =>
    obtain ⟨k', w⟩ := e
    by_cases h : k' = k
    · simp [mapGet, h]
    · have h' : ¬ k = k' := fun hk => h hk.symm
      simp [mapGet, h, h', ih]

theorem mapGet_mapSet_isSome {κ ν : Type} [DecidableEq κ] (m : List (κ × ν)) (k k' : κ) (v : ν)
    (h : (mapGet m k').isSome = true) : (mapGet (mapSet m k v) k').isSome = true := by
  by_cases hk : k = k'
  · subst hk
    rw [mapGet_mapSet_self]
    rfl
  · rw [mapGet_mapSet_of_ne m k k' v hk]
    exact h

/-- Every id in `receivers` has a queue: this holds of the maps `main` builds. -/
theorem buildMaps_values (ParseInt : Str → Option Int) (raw : List (Str × Str))
    (acc res : Receivers × Queues)
    (hacc : ∀ a i, mapGet acc.1 a = some i → (mapGet acc.2 i).isSome = true)
    (h : buildMaps ParseInt raw acc = some res) :
    ∀ a i, mapGet res.1 a = some i → (mapGet res.2 i).isSome = true := by
  induction raw generalizing acc with
  | nil =>
    simp only [buildMaps, Option.some.injEq] at h
    subst h
    exact hacc
  | cons e rest ih =>
    obtain ⟨addr, tg⟩ := e
    obtain ⟨receivers, queues⟩ := acc
    rw [buildMaps] at h
    cases hp : ParseInt tg with
    | none => simp [hp] at h
    | some i =>
      simp only [hp] at h
      refine ih _ ?_ h
      intro a j haj
      by_cases ha : addr = a
      · subst ha
        rw [mapGet_mapSet_self] at haj
        cases haj
        show (mapGet (mapSet queues i []) i).isSome = true
        rw [mapGet_mapSet_self]
        rfl
      · rw [mapGet_mapSet_of_ne _ _ _ _ ha] at haj
        exact mapGet_mapSet_isSome _ _ _ _ (hacc a j haj)

/-- A key of the configuration table, or of the registry so far, is a key of the registry
`main` builds. -/
theorem buildMaps_keys (ParseInt : Str → Option Int) (raw : List (Str × Str))
    (acc res : Receivers × Queues) (k : Str)
    (hk : (mapGet raw k).isSome = true ∨ (mapGet acc.1 k).isSome = true)
    (h : buildMaps ParseInt raw acc = some res) :
    (mapGet res.1 k).isSome = true := by
  induction raw generalizing acc with
  | nil =>
    simp only [buildMaps, Option.some.injEq] at h
    subst h
    rcases hk with hk | hk
    · simp [mapGet] at hk
    · exact hk
  | cons e rest ih =>
    obtain ⟨addr, tg⟩ := e
    obtain ⟨receivers, queues⟩ := acc
    rw [buildMaps] at h
    cases hp : ParseInt tg with
    | none => simp [hp] at h
    | some i =>
      simp only [hp] at h
      refine ih _ ?_ h
      by_cases ha : addr = k
      · right
        subst ha
        show (mapGet (mapSet receivers addr i) addr).isSome = true
        rw [mapGet_mapSet_self]
        rfl
      · rcases hk with hk | hk
        · left
          simpa [mapGet, ha] using hk
        · right
          exact mapGet_mapSet_isSome _ _ _ _ hk

/-- The id chosen for any address is an id with a queue, once the registry has the key `*` and
every id of the registry has a queue. -/
theorem tgid_has_queue (receivers : Receivers) (queues : Queues)
    (hval : ∀ a i, mapGet receivers a = some i → (mapGet queues i).isSome = true)
    (hstar : (mapGet receivers ['*']).isSome = true) (addr : Str) :
    (mapGet queues (tgid receivers addr)).isSome = true := by
  obtain ⟨w, hw⟩ := Option.isSome_iff_exists.mp hstar
  unfold tgid
  cases ha : mapGet receivers addr with
  | none => simpa [hw] using hval _ _ hw
  | some i =>
    by_cases hi : i = 0
    · simpa [hi, hw] using hval _ _ hw
    · simpa [hi] using hval _ _ ha

theorem chanSend_blockedNil (queues : Queues) (t t' : Int) (item item' : queueItem)
    (h : chanSend queues t item = Outcome.blockedNil t' item') :
    mapGet queues t = none := by
  unfold chanSend at h
  cases hq : mapGet queues t with
  | none => rfl
  | some items =>
    simp only [hq] at h
    split at h <;> cases h

/-- When `mailHandler` blocks on a nil channel, the id chosen for the sender has no queue. -/
theorem mailHandler_blockedNil (p : Str → Except Str Str) (pm : Str → Except Str Message)
    (receivers : Receivers) (queues : Queues) (from_ : Str) (to_ : List Str) (data : Str)
    (t : Int) (item : queueItem)
    (h : mailHandler p pm receivers queues from_ to_ data = Outcome.blockedNil t item) :
    ∃ a, parseAddress p from_ = .ok a ∧ mapGet queues (tgid receivers a.Address) = none := by
  unfold mailHandler at h
  split at h
  · cases h
  · rename_i a ha
    refine ⟨a, ha, ?_⟩
    split at h
    · cases h
    · split at h
      · cases h
      · simp only at h
        split at h
        · cases h
        · split at h
          · cases h
          · split at h
            · cases h
            · exact chanSend_blockedNil _ _ _ _ _ h

/-- C10. When `main` gets past the checks of the configuration and has built `receivers` and
`queues`, the id `mailHandler` chooses for any canonical sender address is a key of `queues`,
also when a configured id is 0; and whatever the channels hold later, `mailHandler` never sends
on a missing (nil) channel. -/
theorem main_tgid_has_queue (ParseInt : Str → Option Int) (rawReceivers : List (Str × Str))
    (receivers : Receivers) (queues : Queues)
    (hmain : main ParseInt rawReceivers = some (receivers, queues)) :
    (∀ addr : Str, tgid receivers addr ∈ queues.map Prod.fst) ∧
    ∀ (qs : Queues), qs.map Prod.fst = queues.map Prod.fst →
      ∀ (p : Str → Except Str Str) (pm : Str → Except Str Message) (from_ : Str)
        (to_ : List Str) (data : Str) (t : Int) (item : queueItem),
        mailHandler p pm receivers qs from_ to_ data ≠ Outcome.blockedNil t item := by
  unfold main at hmain
  split at hmain
  · cases hmain
  · rename_i hstar
    have hraw : (mapGet rawReceivers ['*']).isSome = true := by
      cases hg : mapGet rawReceivers ['*'] with
      | none => simp [hg] at hstar
      | some v => rfl
    have hval := buildMaps_values ParseInt rawReceivers ([], []) (receivers, queues)
      (by intro a i h; simp [mapGet] at h) hmain
    have hkey := buildMaps_keys ParseInt rawReceivers ([], []) (receivers, queues) ['*']
      (Or.inl hraw) hmain
    have hall : ∀ addr : Str, tgid receivers addr ∈ queues.map Prod.fst := fun addr =>
      (mapGet_isSome_iff_mem_keys queues _).mp (tgid_has_queue receivers queues hval hkey addr)
    refine ⟨hall, ?_⟩
    intro qs hqs p pm from_ to_ data t item hblock
    obtain ⟨a, _, hnone⟩ := mailHandler_blockedNil p pm receivers qs from_ to_ data t item hblock
    have hmem : tgid receivers a.Address ∈ qs.map Prod.fst := hqs ▸ hall a.Address
    have hsome := (mapGet_isSome_iff_mem_keys qs _).mpr hmem
    rw [hnone] at hsome
    cases hsome

theorem main_tgid_has_queue_witness :
    main ParseInt [("alice@x.com".toList, "0".toList), (['*'], "999".toList)]
      = some ([("alice@x.com".toList, 0), (['*'], 999)], [(0, []), (999, [])]) ∧
    tgid [("alice@x.com".toList, 0), (['*'], 999)] "alice@x.com".toList
      ∈ ([(0, []), (999, [])] : Queues).map Prod.fst :=
  ⟨by decide,
    (main_tgid_has_queue ParseInt [("alice@x.com".toList, "0".toList), (['*'], "999".toList)]
      [("alice@x.com".toList, 0), (['*'], 999)] [(0, []), (999, [])] (by decide)).1
      "alice@x.com".toList⟩

end Smtp2tg
